import Mathlib

/-!
Verification of the caphVSink PulseAudio virtual-sink manager
(`caphVSink.py`).

The development shallowly embeds the program's data model and operations:

* `PulseState` models the audio server state the program queries and
  mutates through `pulsectl`: the list of loaded modules, the list of
  sources, and the list of source outputs (stream consumers), together
  with a fresh-index counter for newly loaded modules.
* `findallKV` models Python's `re.findall(r'([^ ]*?)=([^ ]*)', arg)`,
  the argument parser used by `MyPulse.module_items`.
* `pythonDict` models Python `dict(pairs)` / dict comprehensions:
  an insertion-ordered association list with unique keys, later
  occurrences of a key overwriting the stored value.
* the `MyPulse` operations (`vsink_dict`, `loopback_dict`, `vsink_add`,
  `loopback_add`, `vsink_disconnect`, `vsink_remove`, `vsink_source`,
  `vsink_apps`, `vsink_safe_remove`) and the `Capturer` operations
  (`capturer_connect`, `capturer_deltaprint`) are translated as
  state-passing functions over `PulseState`.
-/

set_option maxHeartbeats 1000000

namespace CaphVSink

/-! ### The argument scanner of `module_items`

`module_items` parses a module argument string with the Python regex
`([^ ]*?)=([^ ]*)`, collecting all non-overlapping leftmost matches
(`re.findall`).  `scanKey` models one attempt of the regex engine to
match the lazy group `([^ ]*?)=` starting at the current position:
it succeeds as soon as it reaches a `'='`, fails on a space or at the
end of input.  `findallGo` models the scan loop of `findall`: on a
match it takes the greedy group `([^ ]*)` as value and resumes after
it; on a failure it advances one character.  The fuel argument makes
the recursion structural; `findallKV` supplies enough fuel. -/

def notSp (c : Char) : Bool := c != ' '

def notEq (c : Char) : Bool := c != '='

def scanKey : List Char → Option (List Char × List Char)
  | [] => none
  | c :: cs =>
    if c = '=' then some ([], cs)
    else if c = ' ' then none
    else (scanKey cs).map (fun kr => (c :: kr.1, kr.2))

def findallGo : Nat → List Char → List (String × String)
  | 0, _ => []
  | _ + 1, [] => []
  | fuel + 1, c :: cs =>
    match scanKey (c :: cs) with
    | some (k, r) =>
        (String.mk k, String.mk (r.takeWhile notSp)) :: findallGo fuel (r.dropWhile notSp)
    | none => findallGo fuel cs

/-- All `key=value` pairs found in a module argument string, in order,
as produced by `re.findall(r'([^ ]*?)=([^ ]*)', arg)`. -/
def findallKV (l : List Char) : List (String × String) :=
  findallGo l.length l

/-! ### Basic facts about the scanner -/

theorem scanKey_append (k r : List Char) (hk : ∀ c ∈ k, c ≠ '=' ∧ c ≠ ' ') :
    scanKey (k ++ '=' :: r) = some (k, r) := by
  induction k with
  | nil => simp [scanKey]
  | cons a t ih =>
    have ha := hk a (by simp)
    rw [List.cons_append]
    simp only [scanKey, if_neg ha.1, if_neg ha.2]
    rw [ih (fun c hc => hk c (by simp [hc]))]
    rfl

theorem scanKey_some_elim {l k r : List Char} (h : scanKey l = some (k, r)) :
    l = k ++ '=' :: r ∧ ∀ c ∈ k, c ≠ '=' ∧ c ≠ ' ' := by
  induction l generalizing k r with
  | nil => simp [scanKey] at h
  | cons c cs ih =>
    by_cases hc : c = '='
    · subst hc
      simp only [scanKey, reduceIte, Option.some.injEq, Prod.mk.injEq] at h
      obtain ⟨h1, h2⟩ := h
      subst h1; subst h2
      exact ⟨rfl, by simp⟩
    · by_cases hs : c = ' '
      · subst hs
        simp [scanKey, hc] at h
      · simp only [scanKey, if_neg hc, if_neg hs] at h
        rcases hsk : scanKey cs with - | ⟨k', r'⟩
        · rw [hsk] at h; simp at h
        · rw [hsk] at h
          simp only [Option.map_some', Option.some.injEq, Prod.mk.injEq] at h
          obtain ⟨h1, h2⟩ := h
          obtain ⟨hcs, hk'⟩ := ih hsk
          subst h2
          subst h1
          refine ⟨by simp [hcs], ?_⟩
          intro x hx
          rcases List.mem_cons.mp hx with hx | hx
          · subst hx; exact ⟨hc, hs⟩
          · exact hk' x hx

theorem scanKey_length {l k r : List Char} (h : scanKey l = some (k, r)) :
    r.length < l.length := by
  obtain ⟨hl, -⟩ := scanKey_some_elim h
  subst hl
  simp
  omega

theorem scanKey_none_iff {l : List Char} :
    scanKey l = none ↔ '=' ∉ l.takeWhile notSp := by
  induction l with
  | nil => simp [scanKey]
  | cons c cs ih =>
    by_cases hc : c = '='
    · subst hc
      constructor
      · intro h; simp [scanKey] at h
      · intro h
        exfalso
        apply h
        have hx : notSp '=' = true := by decide
        simp [List.takeWhile_cons, hx]
    · by_cases hs : c = ' '
      · subst hs
        constructor
        · intro _
          have hx : notSp ' ' = false := by decide
          simp [List.takeWhile_cons, hx]
        · intro _
          simp [scanKey, hc]
      · have hp : notSp c = true := by simp [notSp, hs]
        constructor
        · intro h
          simp only [scanKey, if_neg hc, if_neg hs] at h
          have hcs : scanKey cs = none := by
            rcases hsk : scanKey cs with - | kr
            · rfl
            · rw [hsk] at h; simp at h
          rw [List.takeWhile_cons, if_pos hp]
          simp only [List.mem_cons]
          push_neg
          exact ⟨Ne.symm hc, ih.mp hcs⟩
        · intro h
          rw [List.takeWhile_cons, if_pos hp] at h
          simp only [List.mem_cons] at h
          push_neg at h
          have hcs : scanKey cs = none := ih.mpr h.2
          simp [scanKey, if_neg hc, if_neg hs, hcs]

/-! ### Unfolding lemmas for `findallKV` -/

theorem findallGo_fuel (n : Nat) (l : List Char) (hl : l.length ≤ n) :
    ∀ f₁ f₂ : Nat, l.length ≤ f₁ → l.length ≤ f₂ → findallGo f₁ l = findallGo f₂ l := by
  induction n generalizing l with
  | zero =>
    intro f₁ f₂ h₁ h₂
    have : l = [] := List.eq_nil_of_length_eq_zero (Nat.le_zero.mp hl)
    subst this
    cases f₁ <;> cases f₂ <;> rfl
  | succ n ih =>
    intro f₁ f₂ h₁ h₂
    cases l with
    | nil => cases f₁ <;> cases f₂ <;> rfl
    | cons c cs =>
      cases f₁ with
      | zero => exact absurd h₁ (by simp)
      | succ g₁ =>
        cases f₂ with
        | zero => exact absurd h₂ (by simp)
        | succ g₂ =>
          have hl' : cs.length ≤ n := by simp at hl; omega
          have h₁' : cs.length ≤ g₁ := by simp at h₁; omega
          have h₂' : cs.length ≤ g₂ := by simp at h₂; omega
          simp only [findallGo]
          cases hsk : scanKey (c :: cs) with
          | none => exact ih cs hl' g₁ g₂ h₁' h₂'
          | some kr =>
            obtain ⟨k, r⟩ := kr
            have hr : r.length < cs.length + 1 := by
              have hx := scanKey_length hsk; simpa using hx
            have hd : (r.dropWhile notSp).length ≤ r.length :=
              (List.dropWhile_suffix notSp).sublist.length_le
            show (String.mk k, String.mk (r.takeWhile notSp)) ::
                findallGo g₁ (r.dropWhile notSp) = (String.mk k, String.mk (r.takeWhile notSp)) ::
                findallGo g₂ (r.dropWhile notSp)
            rw [ih (r.dropWhile notSp) (by omega) g₁ g₂ (by omega) (by omega)]

theorem findallKV_nil : findallKV [] = [] := rfl

theorem findallKV_cons_some {l k r : List Char} (h : scanKey l = some (k, r)) :
    findallKV l =
      (String.mk k, String.mk (r.takeWhile notSp)) :: findallKV (r.dropWhile notSp) := by
  cases l with
  | nil => simp [scanKey] at h
  | cons c cs =>
    have hr : r.length < cs.length + 1 := by
      have hx := scanKey_length h; simpa using hx
    have hd : (r.dropWhile notSp).length ≤ r.length :=
      (List.dropWhile_suffix notSp).sublist.length_le
    show findallGo (cs.length + 1) (c :: cs) = _
    simp only [findallGo, h]
    show (String.mk k, String.mk (r.takeWhile notSp)) :: findallGo cs.length (r.dropWhile notSp) = _
    have hgo : findallGo cs.length (r.dropWhile notSp) =
        findallGo (r.dropWhile notSp).length (r.dropWhile notSp) :=
      findallGo_fuel cs.length (r.dropWhile notSp) (by omega) cs.length
        (r.dropWhile notSp).length (by omega) le_rfl
    rw [hgo]
    rfl

theorem findallKV_cons_none {c : Char} {cs : List Char} (h : scanKey (c :: cs) = none) :
    findallKV (c :: cs) = findallKV cs := by
  show findallGo (cs.length + 1) (c :: cs) = _
  simp only [findallGo, h]
  rfl

/-! ### The spec-side tokenizer

Modelled from the spec: "module creation arguments are encoded as
whitespace-separated `key=value` tokens; the Indexer must tolerate
absent keys (map to empty) and must not fail on unexpected extra
arguments".  `splitTokens` splits on spaces; `tokenKV` splits one
token at its first `'='`, rejecting tokens that contain none;
`tokenParse` collects the pairs of all well-formed tokens. -/

def splitTokens : List Char → List (List Char)
  | [] => [[]]
  | c :: cs =>
    if c = ' ' then [] :: splitTokens cs
    else
      match splitTokens cs with
      | t :: ts => (c :: t) :: ts
      | [] => [[c]]

def tokenKV (t : List Char) : Option (String × String) :=
  if '=' ∈ t then
    some (String.mk (t.takeWhile notEq), String.mk ((t.dropWhile notEq).tail))
  else none

def tokenParse (l : List Char) : List (String × String) :=
  (splitTokens l).filterMap tokenKV

theorem splitTokens_eq (cs : List Char) :
    splitTokens cs = (cs.takeWhile notSp) ::
      (match cs.dropWhile notSp with
       | [] => []
       | _ :: rest => splitTokens rest) := by
  induction cs with
  | nil => simp [splitTokens, List.takeWhile_nil, List.dropWhile_nil]
  | cons c cs ih =>
    by_cases hs : c = ' '
    · subst hs
      have hx : notSp ' ' = false := by decide
      simp [splitTokens, List.takeWhile_cons, List.dropWhile_cons, hx]
    · have hp : notSp c = true := by simp [notSp, hs]
      simp only [splitTokens, if_neg hs]
      rw [ih]
      simp [List.takeWhile_cons, List.dropWhile_cons, hp]

/-! ### Small takeWhile/dropWhile helpers -/

theorem takeWhile_append_all (p : Char → Bool) (l₁ l₂ : List Char)
    (h : ∀ c ∈ l₁, p c = true) : (l₁ ++ l₂).takeWhile p = l₁ ++ l₂.takeWhile p := by
  induction l₁ with
  | nil => rfl
  | cons c t ih =>
    rw [List.cons_append, List.takeWhile_cons, if_pos (h c (by simp)), List.cons_append,
      ih (fun x hx => h x (by simp [hx]))]

theorem dropWhile_append_all (p : Char → Bool) (l₁ l₂ : List Char)
    (h : ∀ c ∈ l₁, p c = true) : (l₁ ++ l₂).dropWhile p = l₂.dropWhile p := by
  induction l₁ with
  | nil => rfl
  | cons c t ih =>
    rw [List.cons_append, List.dropWhile_cons, if_pos (h c (by simp)),
      ih (fun x hx => h x (by simp [hx]))]

theorem dropWhile_head_false {p : Char → Bool} {l : List Char} {d : Char} {ds : List Char}
    (h : l.dropWhile p = d :: ds) : p d = false := by
  induction l with
  | nil => simp [List.dropWhile_nil] at h
  | cons c t ih =>
    rw [List.dropWhile_cons] at h
    by_cases hp : p c = true
    · rw [if_pos hp] at h; exact ih h
    · rw [if_neg hp] at h
      obtain ⟨h1, -⟩ := List.cons.injEq .. ▸ h
      injection h with h1 h2
      subst h1
      exact Bool.not_eq_true _ ▸ hp

/-! ### The parser refinement: regex scan = whitespace tokenization -/

theorem findallKV_eq_tokenParse (l : List Char) : findallKV l = tokenParse l := by
  have main : ∀ n (l : List Char), l.length ≤ n → findallKV l = tokenParse l := by
    intro n
    induction n with
    | zero =>
      intro l hl
      have : l = [] := List.eq_nil_of_length_eq_zero (Nat.le_zero.mp hl)
      subst this
      simp [findallKV_nil, tokenParse, splitTokens, tokenKV]
    | succ n ih =>
      intro l hl
      cases l with
      | nil => simp [findallKV_nil, tokenParse, splitTokens, tokenKV]
      | cons c cs =>
        have hcs : cs.length ≤ n := by simp at hl; omega
        by_cases hs : c = ' '
        · subst hs
          rw [findallKV_cons_none (by simp [scanKey]), ih cs hcs]
          simp only [tokenParse, splitTokens, reduceIte]
          rw [List.filterMap_cons]
          simp [tokenKV]
        · have hp : notSp c = true := by simp [notSp, hs]
          cases hsk : scanKey (c :: cs) with
          | some kr =>
            obtain ⟨k, r⟩ := kr
            obtain ⟨hl', hk⟩ := scanKey_some_elim hsk
            have hlen : cs.length = k.length + r.length := by
              have hx : (c :: cs).length = (k ++ '=' :: r).length := by rw [hl']
              simp at hx
              omega
            have hkT : ∀ x ∈ k, notSp x = true := fun x hx => by
              simp [notSp, (hk x hx).2]
            have hkE : ∀ x ∈ k, notEq x = true := fun x hx => by
              simp [notEq, (hk x hx).1]
            have hEq : notEq '=' = false := by decide
            have hSp : notSp '=' = true := by decide
            rw [findallKV_cons_some hsk, tokenParse, splitTokens_eq, hl']
            have h1 : List.takeWhile notSp (k ++ '=' :: r) = k ++ '=' :: r.takeWhile notSp := by
              rw [takeWhile_append_all _ _ _ hkT, List.takeWhile_cons, if_pos hSp]
            have h2 : List.dropWhile notSp (k ++ '=' :: r) = r.dropWhile notSp := by
              rw [dropWhile_append_all _ _ _ hkT, List.dropWhile_cons, if_pos hSp]
            have h3 : tokenKV (k ++ '=' :: r.takeWhile notSp) =
                some (String.mk k, String.mk (r.takeWhile notSp)) := by
              unfold tokenKV
              rw [if_pos (by simp)]
              rw [takeWhile_append_all _ _ _ hkE, dropWhile_append_all _ _ _ hkE,
                List.takeWhile_cons, if_neg (by simp [hEq]), List.dropWhile_cons,
                if_neg (by simp [hEq])]
              simp
            rw [h1, h2, List.filterMap_cons, h3]
            have hdlen : (r.dropWhile notSp).length ≤ r.length :=
              (List.dropWhile_suffix notSp).sublist.length_le
            cases hdr : r.dropWhile notSp with
            | nil => simp [findallKV_nil]
            | cons d ds =>
              have hdF : notSp d = false := dropWhile_head_false hdr
              have hd' : d = ' ' := by simpa [notSp] using hdF
              subst hd'
              rw [findallKV_cons_none (by simp [scanKey])]
              have hds : ds.length ≤ n := by
                rw [hdr] at hdlen
                simp at hdlen
                omega
              rw [ih ds hds]
              rfl
          | none =>
            have hne : '=' ∉ (c :: cs).takeWhile notSp := scanKey_none_iff.mp hsk
            have h1 : (c :: cs).takeWhile notSp = c :: cs.takeWhile notSp := by
              rw [List.takeWhile_cons, if_pos hp]
            have h2 : (c :: cs).dropWhile notSp = cs.dropWhile notSp := by
              rw [List.dropWhile_cons, if_pos hp]
            have hne' : '=' ∉ cs.takeWhile notSp := by
              rw [h1] at hne
              exact fun hx => hne (List.mem_cons_of_mem _ hx)
            rw [findallKV_cons_none hsk, ih cs hcs]
            show tokenParse cs = tokenParse (c :: cs)
            rw [tokenParse, tokenParse, splitTokens_eq cs, splitTokens_eq (c :: cs)]
            have hA : tokenKV ((c :: cs).takeWhile notSp) = none := by
              unfold tokenKV
              rw [if_neg hne]
            have hB : tokenKV (cs.takeWhile notSp) = none := by
              unfold tokenKV
              rw [if_neg hne']
            rw [List.filterMap_cons, List.filterMap_cons, hA, hB, h2]
  exact main l.length l le_rfl

/-! ### The Python dict model

`updateAssoc` is one `d[k] = v` step: overwrite in place if the key is
present, append otherwise.  `pythonDict` builds a dict from a pair list
in iteration order (later pairs overwrite earlier values), `dictGet`
is `d.get(k)`: `none` for an absent key, never an error. -/

def updateAssoc {α β : Type} [DecidableEq α] : List (α × β) → α → β → List (α × β)
  | [], k, v => [(k, v)]
  | (a, b) :: t, k, v => if a = k then (a, v) :: t else (a, b) :: updateAssoc t k v

def pythonDict {α β : Type} [DecidableEq α] (l : List (α × β)) : List (α × β) :=
  l.foldl (fun d p => updateAssoc d p.1 p.2) []

def dictGet {α β : Type} [DecidableEq α] (d : List (α × β)) (k : α) : Option β :=
  (d.find? (fun p => p.1 == k)).map (·.2)

section DictLemmas

variable {α β : Type} [DecidableEq α]

theorem keys_updateAssoc (d : List (α × β)) (k : α) (v : β) :
    (updateAssoc d k v).map Prod.fst =
      if k ∈ d.map Prod.fst then d.map Prod.fst else d.map Prod.fst ++ [k] := by
  induction d with
  | nil => simp [updateAssoc]
  | cons p t ih =>
    obtain ⟨a, b⟩ := p
    by_cases hak : a = k
    · subst hak
      simp [updateAssoc]
    · simp only [updateAssoc, if_neg hak, List.map_cons, ih]
      by_cases hk : k ∈ t.map Prod.fst
      · simp [hk, hak]
      · have : k ∈ a :: t.map Prod.fst ↔ False := by
          simp [hk]
          exact fun h => hak h.symm
        simp [hk, this]

theorem nodup_keys_updateAssoc {d : List (α × β)} (k : α) (v : β)
    (h : (d.map Prod.fst).Nodup) : ((updateAssoc d k v).map Prod.fst).Nodup := by
  rw [keys_updateAssoc]
  by_cases hk : k ∈ d.map Prod.fst
  · simpa [hk] using h
  · simp only [if_neg hk]
    simpa [List.nodup_append, hk] using h

theorem updateAssoc_of_not_mem {d : List (α × β)} {k : α} (v : β)
    (h : k ∉ d.map Prod.fst) : updateAssoc d k v = d ++ [(k, v)] := by
  induction d with
  | nil => simp [updateAssoc]
  | cons p t ih =>
    obtain ⟨a, b⟩ := p
    simp only [List.map_cons, List.mem_cons] at h
    push_neg at h
    simp only [updateAssoc, List.cons_append]
    rw [if_neg (fun hx => h.1 hx.symm), ih h.2]

theorem mem_updateAssoc {d : List (α × β)} {k : α} {v : β} {p : α × β}
    (h : p ∈ updateAssoc d k v) : p ∈ d ∨ p = (k, v) := by
  induction d with
  | nil => simpa [updateAssoc] using h
  | cons q t ih =>
    obtain ⟨a, b⟩ := q
    by_cases hak : a = k
    · subst hak
      simp only [updateAssoc, reduceIte, List.mem_cons] at h
      rcases h with h | h
      · right; simpa using h
      · left; simp [h]
    · simp only [updateAssoc, if_neg hak, List.mem_cons] at h
      rcases h with h | h
      · left; simp [h]
      · rcases ih h with h | h
        · left; simp [h]
        · right; exact h

theorem dictGet_updateAssoc_self (d : List (α × β)) (k : α) (v : β) :
    dictGet (updateAssoc d k v) k = some v := by
  induction d with
  | nil => simp [updateAssoc, dictGet]
  | cons p t ih =>
    obtain ⟨a, b⟩ := p
    by_cases hak : a = k
    · subst hak
      simp [updateAssoc, dictGet]
    · simp only [updateAssoc, if_neg hak, dictGet, List.find?_cons]
      have : (a == k) = false := by simp [hak]
      simp only [this]
      exact ih

theorem dictGet_updateAssoc_ne (d : List (α × β)) {k k' : α} (v : β) (h : k' ≠ k) :
    dictGet (updateAssoc d k v) k' = dictGet d k' := by
  induction d with
  | nil =>
    simp only [updateAssoc, dictGet, List.find?_cons, List.find?_nil]
    have : (k == k') = false := by simp [Ne.symm h]
    simp [this]
  | cons p t ih =>
    obtain ⟨a, b⟩ := p
    by_cases hak : a = k
    · subst hak
      simp only [updateAssoc, reduceIte, dictGet, List.find?_cons]
      by_cases hx : a = k'
      · exact absurd hx.symm (by exact fun hk => h (hk ▸ rfl))
      · have : (a == k') = false := by simp [hx]
        simp [this]
    · simp only [updateAssoc, if_neg hak, dictGet, List.find?_cons]
      by_cases hx : a = k'
      · subst hx
        simp
      · have : (a == k') = false := by simp [hx]
        simp only [this]
        exact ih

theorem dictGet_eq_none_iff {d : List (α × β)} {k : α} :
    dictGet d k = none ↔ k ∉ d.map Prod.fst := by
  induction d with
  | nil => simp [dictGet]
  | cons q t ih =>
    obtain ⟨a, b⟩ := q
    by_cases hak : a = k
    · subst hak
      simp [dictGet, List.find?_cons]
    · have hx : (a == k) = false := by simp [hak]
      simp only [dictGet, List.find?_cons, hx] at ih ⊢
      rw [ih]
      simp only [List.map_cons, List.mem_cons]
      constructor
      · intro h hmem
        rcases hmem with hmem | hmem
        · exact hak hmem.symm
        · exact h hmem
      · intro h hmem
        exact h (Or.inr hmem)

theorem dictGet_mem {d : List (α × β)} {k : α} {v : β} (h : dictGet d k = some v) :
    (k, v) ∈ d := by
  simp only [dictGet, Option.map_eq_some'] at h
  obtain ⟨q, hq, hv⟩ := h
  have h1 : q ∈ d := List.mem_of_find?_eq_some hq
  have h2 := List.find?_some hq
  have h3 : q.1 = k := by simpa using h2
  have hqq : q = (k, v) := by
    obtain ⟨a, b⟩ := q
    simp only at h3 hv
    simp [h3, hv]
  exact hqq ▸ h1

theorem mem_keys_pythonDict {l : List (α × β)} {k : α} :
    k ∈ (pythonDict l).map Prod.fst ↔ k ∈ l.map Prod.fst := by
  have main : ∀ (l acc : List (α × β)),
      k ∈ ((l.foldl (fun d p => updateAssoc d p.1 p.2) acc).map Prod.fst) ↔
        k ∈ acc.map Prod.fst ∨ k ∈ l.map Prod.fst := by
    intro l
    induction l with
    | nil => simp
    | cons p t ih =>
      intro acc
      rw [List.foldl_cons, ih]
      rw [keys_updateAssoc]
      by_cases hp : p.1 ∈ acc.map Prod.fst
      · simp only [if_pos hp, List.map_cons, List.mem_cons]
        constructor
        · rintro (h | h)
          · exact Or.inl h
          · exact Or.inr (Or.inr h)
        · rintro (h | h | h)
          · exact Or.inl h
          · exact Or.inl (h ▸ hp)
          · exact Or.inr h
      · simp only [if_neg hp, List.map_cons, List.mem_cons, List.mem_append,
          List.mem_singleton]
        tauto
  have := main l []
  simpa [pythonDict] using this

theorem nodup_keys_pythonDict (l : List (α × β)) :
    ((pythonDict l).map Prod.fst).Nodup := by
  have main : ∀ (l acc : List (α × β)), (acc.map Prod.fst).Nodup →
      ((l.foldl (fun d p => updateAssoc d p.1 p.2) acc).map Prod.fst).Nodup := by
    intro l
    induction l with
    | nil => intro acc h; simpa using h
    | cons p t ih =>
      intro acc h
      rw [List.foldl_cons]
      exact ih _ (nodup_keys_updateAssoc _ _ h)
  exact main l [] (by simp)

theorem pythonDict_subset {l : List (α × β)} {p : α × β} (h : p ∈ pythonDict l) : p ∈ l := by
  have main : ∀ (l acc : List (α × β)),
      p ∈ l.foldl (fun d q => updateAssoc d q.1 q.2) acc → p ∈ acc ∨ p ∈ l := by
    intro l
    induction l with
    | nil => intro acc h; exact Or.inl h
    | cons q t ih =>
      intro acc h
      rw [List.foldl_cons] at h
      rcases ih _ h with h | h
      · rcases mem_updateAssoc h with h | h
        · exact Or.inl h
        · right
          rw [h]
          exact List.mem_cons_self _ _
      · exact Or.inr (List.mem_cons_of_mem _ h)
  rcases main l [] h with h | h
  · simp at h
  · exact h

theorem pythonDict_append_single (l : List (α × β)) (p : α × β) :
    pythonDict (l ++ [p]) = updateAssoc (pythonDict l) p.1 p.2 := by
  simp [pythonDict, List.foldl_append]

theorem pythonDict_of_nodup_keys {l : List (α × β)} (h : (l.map Prod.fst).Nodup) :
    pythonDict l = l := by
  have main : ∀ (l acc : List (α × β)), (((acc ++ l).map Prod.fst)).Nodup →
      l.foldl (fun d q => updateAssoc d q.1 q.2) acc = acc ++ l := by
    intro l
    induction l with
    | nil => intro acc _; simp
    | cons q t ih =>
      intro acc hn
      rw [List.foldl_cons]
      have hq : q.1 ∉ acc.map Prod.fst := by
        simp only [List.map_append, List.nodup_append] at hn
        intro hmem
        exact hn.2.2 hmem (by simp)
      rw [updateAssoc_of_not_mem _ hq]
      rw [ih (acc ++ [q]) (by simpa using hn)]
      simp
  have := main l [] (by simpa using h)
  simpa [pythonDict] using this

end DictLemmas

/-! ### The server-state model and the `MyPulse` operations -/

structure Module where
  index : Nat
  name : String
  argument : String
deriving DecidableEq

structure Source where
  name : String
  index : Int
deriving DecidableEq

structure SourceOutput where
  index : Nat
  name : String
  source : Int
deriving DecidableEq

structure PulseState where
  modules : List Module
  sources : List Source
  source_outputs : List SourceOutput
  nextIndex : Nat
deriving DecidableEq

/-- Parsed argument dict of a module: `dict(re.findall(r'([^ ]*?)=([^ ]*)', mod.argument))`. -/
def parsedArgs (m : Module) : List (String × String) :=
  pythonDict (findallKV m.argument.data)

/-- Modules of a given kind paired with their parsed argument dicts
(`MyPulse.module_items`). -/
def module_items (s : PulseState) (name : String) : List (List (String × String) × Module) :=
  s.modules.filterMap (fun mod =>
    if mod.name = name then some (parsedArgs mod, mod) else none)

/-- Loading a module appends it with a fresh server-assigned index and
returns that index (`pulsectl.Pulse.module_load`). -/
def module_load (s : PulseState) (name args : String) : Nat × PulseState :=
  (s.nextIndex,
   { s with
     modules := s.modules ++ [{ index := s.nextIndex, name := name, argument := args }],
     nextIndex := s.nextIndex + 1 })

/-- Unloading a module removes it by index (`pulsectl.Pulse.module_unload`). -/
def module_unload (s : PulseState) (idx : Nat) : PulseState :=
  { s with modules := s.modules.filter (fun m => m.index != idx) }

/-- Index of existing virtual sinks as a name-keyed dict (`MyPulse.vsink_dict`). -/
def vsink_dict (s : PulseState) : List (Option String × Module) :=
  pythonDict ((module_items s "module-null-sink").map
    (fun p => (dictGet p.1 "sink_name", p.2)))

/-- Index of existing loopbacks as a pair-keyed dict (`MyPulse.loopback_dict`). -/
def loopback_dict (s : PulseState) : List ((Option String × Option String) × Module) :=
  pythonDict ((module_items s "module-loopback").map
    (fun p => ((dictGet p.1 "source", dictGet p.1 "sink"), p.2)))

def vsink_add_load (s : PulseState) (name : String) : Nat × PulseState :=
  module_load s "module-null-sink"
    ("sink_name=" ++ name ++ " sink_properties=device.description=" ++ name)

/-- Create a virtual sink if it does not exist; returns its index
(`MyPulse.vsink_add`). -/
def vsink_add (s : PulseState) (name : String) : Nat × PulseState :=
  match dictGet (vsink_dict s) (some name) with
  | some curr => (curr.index, s)
  | none => vsink_add_load s name

def loopback_add_load (s : PulseState) (source sink : String) : Nat × PulseState :=
  module_load s "module-loopback" ("source=" ++ source ++ " sink=" ++ sink)

/-- Create a loopback for a (source, sink) pair if it does not exist;
returns its index (`MyPulse.loopback_add`). -/
def loopback_add (s : PulseState) (source sink : String) : Nat × PulseState :=
  match dictGet (loopback_dict s) (some source, some sink) with
  | some curr => (curr.index, s)
  | none => loopback_add_load s source sink

/-- Remove all loopbacks whose target is the given sink
(`MyPulse.vsink_disconnect`). -/
def vsink_disconnect (s : PulseState) (sink : String) : PulseState :=
  (loopback_dict s).foldl
    (fun st p => if p.1.2 = some sink then module_unload st p.2.index else st) s

/-- Disconnect and remove a virtual sink (`MyPulse.vsink_remove`):
first drop all loopbacks into it, then unload every null-sink module
whose parsed `sink_name` matches, iterating over the module list as
re-read after the disconnect. -/
def vsink_remove (s : PulseState) (name : String) : PulseState :=
  (module_items (vsink_disconnect s name) "module-null-sink").foldl
    (fun st p => if dictGet p.1 "sink_name" = some name then module_unload st p.2.index else st)
    (vsink_disconnect s name)

/-- All sources captured by the virtual sink (`MyPulse.vsink_sources`). -/
def vsink_sources (s : PulseState) (name : String) : List (Option String × Module) :=
  pythonDict (((loopback_dict s).filter (fun p => p.1.2 == some name)).map
    (fun p => (p.1.1, p.2)))

/-- Index of the monitor source of a virtual sink, `-1` if absent
(`MyPulse.vsink_source`). -/
def vsink_source (s : PulseState) (name : String) : Int :=
  match s.sources.find? (fun src => src.name == name ++ ".monitor") with
  | some src => src.index
  | none => -1

/-- All apps using the virtual sink, keyed by display name, excluding
the pavucontrol peak-detect stream (`MyPulse.vsink_apps`). -/
def vsink_apps (s : PulseState) (name : String) : List (String × SourceOutput) :=
  let idx := vsink_source s name
  let apps := s.source_outputs.filter (fun c => c.source == idx)
  pythonDict ((apps.filter (fun c => !(c.name == "Peak detect"))).map (fun c => (c.name, c)))

/-- Disconnect and remove a virtual sink only if no app is using it;
returns the blocking apps (`MyPulse.vsink_safe_remove`). -/
def vsink_safe_remove (s : PulseState) (name : String) :
    List (String × SourceOutput) × PulseState :=
  let apps := vsink_apps s name
  if apps.isEmpty then (apps, vsink_remove s name) else (apps, s)

/-- Connect all existing sources except the sink's own monitor to the
virtual sink (`Capturer.capturer_connect`). -/
def capturer_connect (s : PulseState) (name : String) : PulseState :=
  s.sources.foldl
    (fun st src =>
      if src.name = name ++ ".monitor" then st else (loopback_add st src.name name).2) s

/-- Status lines printed by `Capturer.capturer_deltaprint`, comparing the
new snapshot `(srcs, apps)` against the previous `(old_srcs, old_apps)`.
Python iterates each set difference in unspecified order printing one
line per element; the multiset of printed lines is deterministic. -/
def capturer_deltaprint (srcs old_srcs apps old_apps : Finset String) : Multiset String :=
  (srcs \ old_srcs).val.map (fun src => "  Connected source    " ++ src) +
  (old_srcs \ srcs).val.map (fun src => "  Disconnected source " ++ src) +
  (apps \ old_apps).val.map (fun app => "  Connected app       " ++ app) +
  (old_apps \ apps).val.map (fun app => "  Disconnected app    " ++ app)

/-! ### Parsing the argument strings the program itself builds -/

theorem takeWhile_all_true (p : Char → Bool) (l : List Char) (h : ∀ c ∈ l, p c = true) :
    l.takeWhile p = l := by
  have hx := takeWhile_append_all p l [] h
  simpa using hx

theorem dropWhile_all_true (p : Char → Bool) (l : List Char) (h : ∀ c ∈ l, p c = true) :
    l.dropWhile p = [] := by
  have hx := dropWhile_append_all p l [] h
  simpa using hx

theorem findallKV_token (k v rest : List Char)
    (hk : ∀ c ∈ k, c ≠ '=' ∧ c ≠ ' ') (hv : ∀ c ∈ v, c ≠ ' ') :
    findallKV (k ++ '=' :: (v ++ ' ' :: rest)) =
      (String.mk k, String.mk v) :: findallKV rest := by
  have h1 : scanKey (k ++ '=' :: (v ++ ' ' :: rest)) = some (k, v ++ ' ' :: rest) :=
    scanKey_append _ _ hk
  rw [findallKV_cons_some h1]
  have hvT : ∀ c ∈ v, notSp c = true := fun c hc => by simp [notSp, hv c hc]
  have hsF : notSp ' ' = false := by decide
  have h2 : (v ++ ' ' :: rest).takeWhile notSp = v := by
    rw [takeWhile_append_all _ _ _ hvT, List.takeWhile_cons, hsF]
    simp
  have h3 : (v ++ ' ' :: rest).dropWhile notSp = ' ' :: rest := by
    rw [dropWhile_append_all _ _ _ hvT, List.dropWhile_cons, hsF]
    simp
  rw [h2, h3, findallKV_cons_none (by simp [scanKey])]

theorem findallKV_tokenEnd (k v : List Char)
    (hk : ∀ c ∈ k, c ≠ '=' ∧ c ≠ ' ') (hv : ∀ c ∈ v, c ≠ ' ') :
    findallKV (k ++ '=' :: v) = [(String.mk k, String.mk v)] := by
  rw [findallKV_cons_some (scanKey_append _ _ hk)]
  have hvT : ∀ c ∈ v, notSp c = true := fun c hc => by simp [notSp, hv c hc]
  rw [takeWhile_all_true _ _ hvT, dropWhile_all_true _ _ hvT, findallKV_nil]

theorem parse_vsink_args (name : String) (h : ∀ c ∈ name.data, c ≠ ' ') :
    findallKV ("sink_name=" ++ name ++ " sink_properties=device.description=" ++ name).data =
      [("sink_name", name), ("sink_properties", "device.description=" ++ name)] := by
  have e0 : ("sink_name=" ++ name ++ " sink_properties=device.description=" ++ name).data =
      "sink_name=".data ++ name.data ++ " sink_properties=device.description=".data ++
        name.data := by
    rw [String.data_append, String.data_append, String.data_append]
  have e1 : "sink_name=".data ++ name.data ++ " sink_properties=device.description=".data ++
        name.data =
      "sink_name".data ++ '=' :: (name.data ++ ' ' ::
        ("sink_properties".data ++ '=' :: ("device.description=".data ++ name.data))) := by
    have l1 : "sink_name=".data = "sink_name".data ++ ['='] := by decide
    have l2 : " sink_properties=device.description=".data =
        ' ' :: ("sink_properties".data ++ '=' :: "device.description=".data) := by decide
    rw [l1, l2]
    simp
  rw [e0, e1]
  have hk1 : ∀ c ∈ "sink_name".data, c ≠ '=' ∧ c ≠ ' ' := by decide
  have hk2 : ∀ c ∈ "sink_properties".data, c ≠ '=' ∧ c ≠ ' ' := by decide
  have hlit : ∀ c ∈ "device.description=".data, c ≠ ' ' := by decide
  have hv2 : ∀ c ∈ "device.description=".data ++ name.data, c ≠ ' ' := by
    intro c hc
    rcases List.mem_append.mp hc with hc | hc
    · exact hlit c hc
    · exact h c hc
  rw [findallKV_token _ _ _ hk1 h, findallKV_tokenEnd _ _ hk2 hv2]
  have hnm : String.mk name.data = name := rfl
  have hdd : String.mk ("device.description=".data ++ name.data) =
      "device.description=" ++ name := by
    rw [← String.data_append]
  rw [hnm, hdd]

theorem parse_loopback_args (source sink : String)
    (hsrc : ∀ c ∈ source.data, c ≠ ' ') (hsink : ∀ c ∈ sink.data, c ≠ ' ') :
    findallKV ("source=" ++ source ++ " sink=" ++ sink).data =
      [("source", source), ("sink", sink)] := by
  have e0 : ("source=" ++ source ++ " sink=" ++ sink).data =
      "source=".data ++ source.data ++ " sink=".data ++ sink.data := by
    rw [String.data_append, String.data_append, String.data_append]
  have e1 : "source=".data ++ source.data ++ " sink=".data ++ sink.data =
      "source".data ++ '=' :: (source.data ++ ' ' :: ("sink".data ++ '=' :: sink.data)) := by
    have l1 : "source=".data = "source".data ++ ['='] := by decide
    have l2 : " sink=".data = ' ' :: ("sink".data ++ ['=']) := by decide
    rw [l1, l2]
    simp
  rw [e0, e1]
  have hk1 : ∀ c ∈ "source".data, c ≠ '=' ∧ c ≠ ' ' := by decide
  have hk2 : ∀ c ∈ "sink".data, c ≠ '=' ∧ c ≠ ' ' := by decide
  rw [findallKV_token _ _ _ hk1 hsrc, findallKV_tokenEnd _ _ hk2 hsink]

/-! ### Semantic predicates and indexing lemmas -/

/-- The module is a loopback route whose parsed target is the given sink. -/
def isLoopTo (m : Module) (sink : String) : Prop :=
  m.name = "module-loopback" ∧ dictGet (parsedArgs m) "sink" = some sink

/-- The module is a null sink carrying the given parsed sink name. -/
def isNullSinkNamed (m : Module) (name : String) : Prop :=
  m.name = "module-null-sink" ∧ dictGet (parsedArgs m) "sink_name" = some name

instance (m : Module) (sink : String) : Decidable (isLoopTo m sink) := by
  unfold isLoopTo; infer_instance

instance (m : Module) (name : String) : Decidable (isNullSinkNamed m name) := by
  unfold isNullSinkNamed; infer_instance

/-- Parsed (source, sink) pairs of all loopback modules, in module order;
these are the keys fed into `loopback_dict`. -/
def loopPairs (s : PulseState) : List (Option String × Option String) :=
  (module_items s "module-loopback").map (fun p => (dictGet p.1 "source", dictGet p.1 "sink"))

theorem module_items_mem {s : PulseState} {n : String} {d : List (String × String)}
    {m : Module} :
    (d, m) ∈ module_items s n ↔ m ∈ s.modules ∧ m.name = n ∧ d = parsedArgs m := by
  simp only [module_items, List.mem_filterMap]
  constructor
  · rintro ⟨mod, hmod, hsome⟩
    by_cases hn : mod.name = n
    · rw [if_pos hn] at hsome
      injection hsome with hsome
      rw [Prod.mk.injEq] at hsome
      obtain ⟨hd, hm⟩ := hsome
      subst hm
      exact ⟨hmod, hn, hd.symm⟩
    · rw [if_neg hn] at hsome
      cases hsome
  · rintro ⟨hm, hn, hd⟩
    exact ⟨m, hm, by rw [if_pos hn, hd]⟩

theorem module_items_sublist (s : PulseState) (n : String) :
    ((module_items s n).map Prod.snd).Sublist s.modules := by
  unfold module_items
  induction s.modules with
  | nil => simp
  | cons mod t ih =>
    rw [List.filterMap_cons]
    by_cases hn : mod.name = n
    · rw [if_pos hn]
      simpa using List.Sublist.cons₂ mod ih
    · rw [if_neg hn]
      exact ih.cons mod

/-! ### The unload folds of `vsink_disconnect` and `vsink_remove` -/

theorem unload_foldl_mem {α : Type} (l : List α) (P : α → Prop) [DecidablePred P]
    (ix : α → Nat) (s : PulseState) (m : Module) :
    m ∈ (l.foldl (fun st a => if P a then module_unload st (ix a) else st) s).modules ↔
      m ∈ s.modules ∧ ∀ a ∈ l, P a → ix a ≠ m.index := by
  induction l generalizing s with
  | nil => simp
  | cons a t ih =>
    rw [List.foldl_cons]
    by_cases hp : P a
    · rw [if_pos hp, ih]
      have hun : m ∈ (module_unload s (ix a)).modules ↔ m ∈ s.modules ∧ m.index ≠ ix a := by
        simp [module_unload, List.mem_filter]
      rw [hun]
      constructor
      · rintro ⟨⟨h1, h2⟩, h3⟩
        refine ⟨h1, ?_⟩
        intro b hb hPb
        rcases List.mem_cons.mp hb with hb | hb
        · subst hb; exact fun hx => h2 hx.symm
        · exact h3 b hb hPb
      · rintro ⟨h1, h2⟩
        refine ⟨⟨h1, fun hx => (h2 a (by simp) hp) hx.symm⟩, ?_⟩
        intro b hb hPb
        exact h2 b (List.mem_cons_of_mem _ hb) hPb
    · rw [if_neg hp, ih]
      constructor
      · rintro ⟨h1, h2⟩
        refine ⟨h1, ?_⟩
        intro b hb hPb
        rcases List.mem_cons.mp hb with hb | hb
        · subst hb; exact absurd hPb hp
        · exact h2 b hb hPb
      · rintro ⟨h1, h2⟩
        exact ⟨h1, fun b hb hPb => h2 b (List.mem_cons_of_mem _ hb) hPb⟩

theorem unload_foldl_sublist {α : Type} (l : List α) (P : α → Prop) [DecidablePred P]
    (ix : α → Nat) (s : PulseState) :
    (l.foldl (fun st a => if P a then module_unload st (ix a) else st) s).modules.Sublist
      s.modules := by
  induction l generalizing s with
  | nil => simp
  | cons a t ih =>
    rw [List.foldl_cons]
    by_cases hp : P a
    · rw [if_pos hp]
      exact (ih (module_unload s (ix a))).trans (List.filter_sublist _)
    · rw [if_neg hp]
      exact ih s

theorem unload_foldl_noop {α : Type} (l : List α) (P : α → Prop) [DecidablePred P]
    (ix : α → Nat) (s : PulseState) (h : ∀ a ∈ l, ¬ P a) :
    l.foldl (fun st a => if P a then module_unload st (ix a) else st) s = s := by
  induction l generalizing s with
  | nil => rfl
  | cons a t ih =>
    rw [List.foldl_cons, if_neg (h a (by simp))]
    exact ih s (fun b hb => h b (List.mem_cons_of_mem _ hb))

theorem unload_foldl_frame {α : Type} (l : List α) (P : α → Prop) [DecidablePred P]
    (ix : α → Nat) (s : PulseState) :
    (l.foldl (fun st a => if P a then module_unload st (ix a) else st) s).sources = s.sources ∧
    (l.foldl (fun st a => if P a then module_unload st (ix a) else st) s).source_outputs =
      s.source_outputs ∧
    (l.foldl (fun st a => if P a then module_unload st (ix a) else st) s).nextIndex =
      s.nextIndex := by
  induction l generalizing s with
  | nil => exact ⟨rfl, rfl, rfl⟩
  | cons a t ih =>
    rw [List.foldl_cons]
    by_cases hp : P a
    · rw [if_pos hp]
      exact ih (module_unload s (ix a))
    · rw [if_neg hp]
      exact ih s

/-! ### What `vsink_disconnect` and `vsink_remove` do to the module list -/

theorem loopback_dict_entry {s : PulseState} {p : (Option String × Option String) × Module}
    (hp : p ∈ loopback_dict s) :
    p.2 ∈ s.modules ∧ p.2.name = "module-loopback" ∧
      p.1 = (dictGet (parsedArgs p.2) "source", dictGet (parsedArgs p.2) "sink") := by
  have hsub := pythonDict_subset hp
  simp only [List.mem_map] at hsub
  obtain ⟨q, hq, hpq⟩ := hsub
  obtain ⟨d, mod⟩ := q
  obtain ⟨hm, hn, hd⟩ := module_items_mem.mp hq
  subst hd
  subst hpq
  exact ⟨hm, hn, rfl⟩

theorem loopback_dict_full {s : PulseState} (hpairs : (loopPairs s).Nodup) {m : Module}
    (hm : m ∈ s.modules) (hname : m.name = "module-loopback") :
    ((dictGet (parsedArgs m) "source", dictGet (parsedArgs m) "sink"), m) ∈
      loopback_dict s := by
  have heq : loopback_dict s = (module_items s "module-loopback").map
      (fun p => ((dictGet p.1 "source", dictGet p.1 "sink"), p.2)) := by
    unfold loopback_dict
    apply pythonDict_of_nodup_keys
    have hkeys : ((module_items s "module-loopback").map
        (fun p => ((dictGet p.1 "source", dictGet p.1 "sink"), p.2))).map Prod.fst =
          loopPairs s := by
      rw [List.map_map]
      rfl
    rw [hkeys]
    exact hpairs
  rw [heq]
  exact List.mem_map.mpr ⟨(parsedArgs m, m), module_items_mem.mpr ⟨hm, hname, rfl⟩, rfl⟩

theorem vsink_disconnect_modules_iff (s : PulseState) (sink : String)
    (hidx : (s.modules.map Module.index).Nodup)
    (hpairs : (loopPairs s).Nodup) (m : Module) :
    m ∈ (vsink_disconnect s sink).modules ↔ m ∈ s.modules ∧ ¬ isLoopTo m sink := by
  have base : m ∈ (vsink_disconnect s sink).modules ↔
      m ∈ s.modules ∧ ∀ p ∈ loopback_dict s, p.1.2 = some sink → p.2.index ≠ m.index :=
    unload_foldl_mem (loopback_dict s) (fun p => p.1.2 = some sink)
      (fun p => p.2.index) s m
  rw [base]
  constructor
  · rintro ⟨hm, hall⟩
    refine ⟨hm, ?_⟩
    rintro ⟨hname, hsink⟩
    have hmem : ((dictGet (parsedArgs m) "source", dictGet (parsedArgs m) "sink"), m) ∈
        loopback_dict s := loopback_dict_full hpairs hm hname
    exact hall _ hmem hsink rfl
  · rintro ⟨hm, hnl⟩
    refine ⟨hm, ?_⟩
    intro p hp hsink hix
    obtain ⟨hp2, hpname, hpkey⟩ := loopback_dict_entry hp
    have hpm : p.2 = m := List.inj_on_of_nodup_map hidx hp2 hm hix
    apply hnl
    refine ⟨by rw [← hpm]; exact hpname, ?_⟩
    have hk2 : p.1.2 = dictGet (parsedArgs p.2) "sink" := by rw [hpkey]
    rw [← hpm, ← hk2]
    exact hsink

theorem vsink_disconnect_sublist (s : PulseState) (sink : String) :
    (vsink_disconnect s sink).modules.Sublist s.modules :=
  unload_foldl_sublist (loopback_dict s) (fun p => p.1.2 = some sink)
    (fun p => p.2.index) s

theorem vsink_remove_modules_iff (s : PulseState) (name : String)
    (hidx : (s.modules.map Module.index).Nodup)
    (hpairs : (loopPairs s).Nodup) (m : Module) :
    m ∈ (vsink_remove s name).modules ↔
      m ∈ s.modules ∧ ¬ isLoopTo m name ∧ ¬ isNullSinkNamed m name := by
  have hsub : (vsink_disconnect s name).modules.Sublist s.modules :=
    vsink_disconnect_sublist s name
  have base : m ∈ (vsink_remove s name).modules ↔
      m ∈ (vsink_disconnect s name).modules ∧
        ∀ p ∈ module_items (vsink_disconnect s name) "module-null-sink",
          dictGet p.1 "sink_name" = some name → p.2.index ≠ m.index :=
    unload_foldl_mem (module_items (vsink_disconnect s name) "module-null-sink")
      (fun p => dictGet p.1 "sink_name" = some name) (fun p => p.2.index)
      (vsink_disconnect s name) m
  rw [base, vsink_disconnect_modules_iff s name hidx hpairs m]
  constructor
  · rintro ⟨⟨hm, hnl⟩, hall⟩
    refine ⟨hm, hnl, ?_⟩
    rintro ⟨hname2, hget⟩
    have hm1 : m ∈ (vsink_disconnect s name).modules :=
      (vsink_disconnect_modules_iff s name hidx hpairs m).mpr ⟨hm, hnl⟩
    have hmem : (parsedArgs m, m) ∈ module_items (vsink_disconnect s name) "module-null-sink" :=
      module_items_mem.mpr ⟨hm1, hname2, rfl⟩
    exact hall _ hmem hget rfl
  · rintro ⟨hm, hnl, hnn⟩
    refine ⟨⟨hm, hnl⟩, ?_⟩
    intro p hp hget hix
    obtain ⟨d, mod⟩ := p
    obtain ⟨hm1, hn1, hd1⟩ := module_items_mem.mp hp
    have hmod_s : mod ∈ s.modules := hsub.subset hm1
    have hmodm : mod = m := List.inj_on_of_nodup_map hidx hmod_s hm hix
    apply hnn
    refine ⟨by rw [← hmodm]; exact hn1, ?_⟩
    rw [← hmodm]
    rw [hd1] at hget
    exact hget

theorem vsink_remove_noop (s : PulseState) (name : String)
    (h : ∀ m ∈ s.modules, ¬ isLoopTo m name ∧ ¬ isNullSinkNamed m name) :
    vsink_remove s name = s := by
  have h1 : vsink_disconnect s name = s := by
    apply unload_foldl_noop
    intro p hp hsink
    obtain ⟨hp2, hpname, hpkey⟩ := loopback_dict_entry hp
    apply (h p.2 hp2).1
    refine ⟨hpname, ?_⟩
    have hk2 : p.1.2 = dictGet (parsedArgs p.2) "sink" := by rw [hpkey]
    rw [← hk2]
    exact hsink
  unfold vsink_remove
  rw [h1]
  apply unload_foldl_noop
  intro p hp hget
  obtain ⟨d, mod⟩ := p
  obtain ⟨hm1, hn1, hd1⟩ := module_items_mem.mp hp
  apply (h mod hm1).2
  refine ⟨hn1, ?_⟩
  rw [hd1] at hget
  exact hget

/-! ### Facts about `vsink_apps` and `vsink_source` -/

theorem vsink_apps_eq (s : PulseState) (name : String) :
    vsink_apps s name =
      pythonDict (((s.source_outputs.filter
          (fun c => c.source == vsink_source s name)).filter
        (fun c => !(c.name == "Peak detect"))).map (fun c => (c.name, c))) := rfl

theorem vsink_apps_entry {s : PulseState} {name : String} {p : String × SourceOutput}
    (hp : p ∈ vsink_apps s name) :
    p.2 ∈ s.source_outputs ∧ p.2.source = vsink_source s name ∧
      p.2.name ≠ "Peak detect" ∧ p.1 = p.2.name := by
  rw [vsink_apps_eq] at hp
  have hsub := pythonDict_subset hp
  simp only [List.mem_map, List.mem_filter] at hsub
  obtain ⟨c, ⟨⟨hc1, hc2⟩, hc3⟩, hpc⟩ := hsub
  subst hpc
  refine ⟨hc1, by simpa using hc2, by simpa using hc3, rfl⟩

theorem vsink_apps_key_mem {s : PulseState} {name : String} {c : SourceOutput}
    (hc : c ∈ s.source_outputs) (hsrc : c.source = vsink_source s name)
    (hn : c.name ≠ "Peak detect") :
    c.name ∈ (vsink_apps s name).map Prod.fst := by
  rw [vsink_apps_eq, mem_keys_pythonDict]
  simp only [List.map_map, List.mem_map, List.mem_filter, Function.comp]
  exact ⟨c, ⟨⟨hc, by simpa using hsrc⟩, by simpa using hn⟩, rfl⟩

theorem vsink_source_not_found {s : PulseState} {name : String}
    (hmon : ∀ src ∈ s.sources, src.name ≠ name ++ ".monitor") :
    vsink_source s name = -1 := by
  unfold vsink_source
  cases hfind : s.sources.find? (fun src => src.name == name ++ ".monitor") with
  | none => rfl
  | some src =>
    have hbeq := List.find?_some hfind
    have hmem := List.mem_of_find?_eq_some hfind
    exact absurd (by simpa using hbeq) (hmon src hmem)

/-! ### Claim theorems -/

/-- C9: `vsink_disconnect` (disconnectAll) unloads exactly the loopback
modules whose parsed target is the given sink: a module survives the
call iff it was present and is not a loopback routing into that sink;
no other module — loopbacks into other sinks, the sink module itself —
is unloaded.  Hypotheses: the server's module indices are distinct, and
loopback (source, sink) argument pairs are not duplicated (the
uniqueness invariant the Router maintains). -/
theorem C9_disconnect_exactly_routes (s : PulseState) (sink : String)
    (hidx : (s.modules.map Module.index).Nodup)
    (hpairs : (loopPairs s).Nodup) :
    ∀ m : Module, m ∈ (vsink_disconnect s sink).modules ↔
      m ∈ s.modules ∧ ¬ isLoopTo m sink :=
  fun m => vsink_disconnect_modules_iff s sink hidx hpairs m

/-- C1: `vsink_safe_remove` (removeSinkIfUnused) is gated on the consumer
set: if it is non-empty the call returns it and leaves the state intact
(sink module and all its routes included); if it is empty the call
returns the empty set and removes exactly the loopbacks into the sink
and the null-sink modules named after it. -/
theorem C1_safe_remove_gate (s : PulseState) (name : String)
    (hidx : (s.modules.map Module.index).Nodup)
    (hpairs : (loopPairs s).Nodup) :
    (vsink_apps s name ≠ [] → vsink_safe_remove s name = (vsink_apps s name, s)) ∧
    (vsink_apps s name = [] →
      (vsink_safe_remove s name).1 = [] ∧
      ∀ m : Module, m ∈ (vsink_safe_remove s name).2.modules ↔
        m ∈ s.modules ∧ ¬ isLoopTo m name ∧ ¬ isNullSinkNamed m name) := by
  cases happs : vsink_apps s name with
  | nil =>
    refine ⟨fun h => absurd rfl h, fun _ => ?_⟩
    have hrm : vsink_safe_remove s name = ([], vsink_remove s name) := by
      unfold vsink_safe_remove
      rw [happs]
      rfl
    rw [hrm]
    exact ⟨rfl, fun m => vsink_remove_modules_iff s name hidx hpairs m⟩
  | cons a t =>
    refine ⟨fun _ => ?_, fun h => absurd h (by simp)⟩
    unfold vsink_safe_remove
    rw [happs]
    rfl

/-- C4: when no source named `<name>.monitor` exists, `vsink_source`
returns the `-1` sentinel, `vsink_apps` returns the empty dict rather
than failing (consumer source indices are nonnegative in the server),
and `vsink_safe_remove` on such an already-absent sink (no null-sink
module named `name`, no loopback targeting it) is a no-op returning the
empty set. -/
theorem C4_absent_sink_noop (s : PulseState) (name : String)
    (hmon : ∀ src ∈ s.sources, src.name ≠ name ++ ".monitor")
    (hcons : ∀ c ∈ s.source_outputs, 0 ≤ c.source)
    (hmods : ∀ m ∈ s.modules, ¬ isLoopTo m name ∧ ¬ isNullSinkNamed m name) :
    vsink_source s name = -1 ∧ vsink_apps s name = [] ∧
      vsink_safe_remove s name = ([], s) := by
  have h1 : vsink_source s name = -1 := vsink_source_not_found hmon
  have hf : s.source_outputs.filter (fun c => c.source == vsink_source s name) = [] := by
    rw [List.filter_eq_nil_iff]
    intro c hc
    have hge := hcons c hc
    rw [h1]
    simp only [beq_iff_eq]
    intro hx
    rw [hx] at hge
    omega
  have h2 : vsink_apps s name = [] := by
    rw [vsink_apps_eq, hf]
    rfl
  have h3 : vsink_remove s name = s := vsink_remove_noop s name hmods
  refine ⟨h1, h2, ?_⟩
  unfold vsink_safe_remove
  rw [h2, h3]
  rfl

/-- C6: a consumer displaying the passive level-meter name
`'Peak detect'` never appears in the consumer set computed by
`vsink_apps`, while every other consumer reading from the sink's
monitor index appears (keyed, as the data model prescribes, by its
display name). -/
theorem C6_peak_detect_excluded (s : PulseState) (name : String) :
    (∀ p ∈ vsink_apps s name,
      p.2.name ≠ "Peak detect" ∧ p.1 = p.2.name ∧ p.2 ∈ s.source_outputs ∧
        p.2.source = vsink_source s name) ∧
    (∀ c ∈ s.source_outputs, c.source = vsink_source s name → c.name ≠ "Peak detect" →
      c.name ∈ (vsink_apps s name).map Prod.fst) := by
  constructor
  · intro p hp
    obtain ⟨h1, h2, h3, h4⟩ := vsink_apps_entry hp
    exact ⟨h3, h4, h1, h2⟩
  · intro c hc hsrc hn
    exact vsink_apps_key_mem hc hsrc hn

/-- C10: the consumer set of `vsink_apps` is keyed by display name, so
it holds at most one entry per name: its key list has no duplicates,
and two distinct consumer streams on the sink's monitor that share a
display name yield exactly one entry under that name. -/
theorem C10_one_entry_per_name (s : PulseState) (name : String) :
    ((vsink_apps s name).map Prod.fst).Nodup ∧
    (∀ c₁ c₂ : SourceOutput, c₁ ∈ s.source_outputs → c₂ ∈ s.source_outputs →
      c₁ ≠ c₂ → c₁.name = c₂.name →
      c₁.source = vsink_source s name → c₂.source = vsink_source s name →
      c₁.name ≠ "Peak detect" →
      ((vsink_apps s name).map Prod.fst).count c₁.name = 1) := by
  have hnodup : ((vsink_apps s name).map Prod.fst).Nodup := by
    rw [vsink_apps_eq]
    exact nodup_keys_pythonDict _
  refine ⟨hnodup, ?_⟩
  intro c₁ c₂ hc₁ hc₂ hne hnm hs₁ hs₂ hpd
  have hmem : c₁.name ∈ (vsink_apps s name).map Prod.fst :=
    vsink_apps_key_mem hc₁ hs₁ hpd
  have hle := List.nodup_iff_count_le_one.mp hnodup c₁.name
  have hpos := List.count_pos_iff.mpr hmem
  omega

/-! ### The idempotent add operations -/

/-- Parsed `sink_name` values of all null-sink modules, in module order;
these are the keys fed into `vsink_dict`. -/
def nullSinkNames (s : PulseState) : List (Option String) :=
  (module_items s "module-null-sink").map (fun p => dictGet p.1 "sink_name")

/-- Number of null-sink modules whose parsed `sink_name` is the given name. -/
def nullSinkCount (s : PulseState) (name : String) : Nat :=
  (nullSinkNames s).count (some name)

/-- Number of loopback modules whose parsed (source, sink) pair is the given pair. -/
def loopbackPairCount (s : PulseState) (source sink : String) : Nat :=
  (loopPairs s).count (some source, some sink)

theorem vsink_dict_none_iff (s : PulseState) (name : String) :
    dictGet (vsink_dict s) (some name) = none ↔ some name ∉ nullSinkNames s := by
  rw [dictGet_eq_none_iff]
  unfold vsink_dict
  rw [not_iff_not.mpr mem_keys_pythonDict]
  have hkeys : ((module_items s "module-null-sink").map
      (fun p => (dictGet p.1 "sink_name", p.2))).map Prod.fst = nullSinkNames s := by
    rw [List.map_map]
    rfl
  rw [hkeys]

theorem loopback_dict_none_iff (s : PulseState) (source sink : String) :
    dictGet (loopback_dict s) (some source, some sink) = none ↔
      (some source, some sink) ∉ loopPairs s := by
  rw [dictGet_eq_none_iff]
  unfold loopback_dict
  rw [not_iff_not.mpr mem_keys_pythonDict]
  have hkeys : ((module_items s "module-loopback").map
      (fun p => ((dictGet p.1 "source", dictGet p.1 "sink"), p.2))).map Prod.fst =
        loopPairs s := by
    rw [List.map_map]
    rfl
  rw [hkeys]

theorem module_items_load_eq (s : PulseState) (kind args n : String) :
    module_items (module_load s kind args).2 n =
      module_items s n ++
        (if kind = n then
          [(pythonDict (findallKV args.data),
            { index := s.nextIndex, name := kind, argument := args })]
         else []) := by
  unfold module_items module_load
  rw [List.filterMap_append]
  congr 1
  by_cases h : kind = n
  · rw [if_pos h]
    simp [List.filterMap_cons, h, parsedArgs]
  · rw [if_neg h]
    simp [List.filterMap_cons, h]

/-- The null-sink module created by `vsink_add_load`. -/
def loadedNullSink (s : PulseState) (name : String) : Module :=
  { index := s.nextIndex, name := "module-null-sink",
    argument := "sink_name=" ++ name ++ " sink_properties=device.description=" ++ name }

/-- The loopback module created by `loopback_add_load`. -/
def loadedLoopback (s : PulseState) (source sink : String) : Module :=
  { index := s.nextIndex, name := "module-loopback",
    argument := "source=" ++ source ++ " sink=" ++ sink }

theorem parsedArgs_loadedNullSink (s : PulseState) (name : String)
    (hname : ∀ c ∈ name.data, c ≠ ' ') :
    parsedArgs (loadedNullSink s name) =
      [("sink_name", name), ("sink_properties", "device.description=" ++ name)] := by
  unfold parsedArgs loadedNullSink
  rw [parse_vsink_args name hname]
  apply pythonDict_of_nodup_keys
  have hmap : ([("sink_name", name),
      ("sink_properties", "device.description=" ++ name)]).map Prod.fst =
        ["sink_name", "sink_properties"] := rfl
  rw [hmap]
  decide

theorem parsedArgs_loadedLoopback (s : PulseState) (source sink : String)
    (hsrc : ∀ c ∈ source.data, c ≠ ' ') (hsink : ∀ c ∈ sink.data, c ≠ ' ') :
    parsedArgs (loadedLoopback s source sink) = [("source", source), ("sink", sink)] := by
  unfold parsedArgs loadedLoopback
  rw [parse_loopback_args source sink hsrc hsink]
  apply pythonDict_of_nodup_keys
  have hmap : ([("source", source), ("sink", sink)]).map Prod.fst = ["source", "sink"] := rfl
  rw [hmap]
  decide

theorem module_items_vsink_add_load (s : PulseState) (name : String) :
    module_items (vsink_add_load s name).2 "module-null-sink" =
      module_items s "module-null-sink" ++
        [(parsedArgs (loadedNullSink s name), loadedNullSink s name)] := by
  unfold vsink_add_load
  rw [module_items_load_eq, if_pos rfl]
  rfl

theorem module_items_loopback_add_load (s : PulseState) (source sink : String) :
    module_items (loopback_add_load s source sink).2 "module-loopback" =
      module_items s "module-loopback" ++
        [(parsedArgs (loadedLoopback s source sink), loadedLoopback s source sink)] := by
  unfold loopback_add_load
  rw [module_items_load_eq, if_pos rfl]
  rfl

/-- C2: `vsink_add` (ensureSinkExists) is idempotent.  With no external
changes in between, two consecutive calls return the same module index,
the second call leaves the state unchanged, exactly one null-sink
module carries the name afterwards, and a call on a state that already
has the sink creates nothing.  Hypotheses: valid sink names contain no
space (PulseAudio rejects them, and the program's `key=value` encoding
presupposes it), and the state satisfies the at-most-one-sink-per-name
invariant. -/
theorem C2_vsink_add_idempotent (s : PulseState) (name : String)
    (hname : ∀ c ∈ name.data, c ≠ ' ')
    (hcount : nullSinkCount s name ≤ 1) :
    (vsink_add s name).1 = (vsink_add (vsink_add s name).2 name).1 ∧
    (vsink_add (vsink_add s name).2 name).2 = (vsink_add s name).2 ∧
    nullSinkCount (vsink_add s name).2 name = 1 ∧
    (1 ≤ nullSinkCount s name → (vsink_add s name).2 = s) := by
  cases hget : dictGet (vsink_dict s) (some name) with
  | some curr =>
    have h1 : vsink_add s name = (curr.index, s) := by
      unfold vsink_add
      rw [hget]
    have h2 : (vsink_add s name).2 = s := by rw [h1]
    have hmem : some name ∈ nullSinkNames s := by
      by_contra hx
      have hnone := (vsink_dict_none_iff s name).mpr hx
      rw [hget] at hnone
      cases hnone
    have hcpos : 0 < nullSinkCount s name := List.count_pos_iff.mpr hmem
    have hc1 : nullSinkCount s name = 1 := le_antisymm hcount hcpos
    refine ⟨?_, ?_, ?_, fun _ => h2⟩
    · rw [h2]
    · rw [h2]
      exact h2
    · rw [h2]
      exact hc1
  | none =>
    have hnot : some name ∉ nullSinkNames s := (vsink_dict_none_iff s name).mp hget
    have hc0 : nullSinkCount s name = 0 := List.count_eq_zero.mpr hnot
    have h1 : vsink_add s name = vsink_add_load s name := by
      unfold vsink_add
      rw [hget]
    have hgetM : dictGet (parsedArgs (loadedNullSink s name)) "sink_name" = some name := by
      rw [parsedArgs_loadedNullSink s name hname]
      simp [dictGet]
    have hitems := module_items_vsink_add_load s name
    have hnames : nullSinkNames (vsink_add_load s name).2 =
        nullSinkNames s ++ [some name] := by
      unfold nullSinkNames
      rw [hitems, List.map_append]
      simp [hgetM]
    have hdict1 : dictGet (vsink_dict (vsink_add_load s name).2) (some name) =
        some (loadedNullSink s name) := by
      unfold vsink_dict
      rw [hitems, List.map_append]
      have hone : ([(parsedArgs (loadedNullSink s name), loadedNullSink s name)]).map
          (fun p => (dictGet p.1 "sink_name", p.2)) =
            [(some name, loadedNullSink s name)] := by
        simp [hgetM]
      rw [hone, pythonDict_append_single]
      exact dictGet_updateAssoc_self _ _ _
    have h2 : vsink_add (vsink_add_load s name).2 name =
        ((loadedNullSink s name).index, (vsink_add_load s name).2) := by
      unfold vsink_add
      rw [hdict1]
    refine ⟨?_, ?_, ?_, ?_⟩
    · rw [h1, h2]
      rfl
    · rw [h1, h2]
    · rw [h1]
      unfold nullSinkCount
      rw [hnames, List.count_append]
      have hc0' : (nullSinkNames s).count (some name) = 0 := hc0
      rw [hc0']
      simp
    · intro hge
      rw [hc0] at hge
      omega

/-- C3: `loopback_add` (ensureRouteExists) is idempotent per
(source, sink) pair.  With no external changes in between, two
consecutive calls return the same module index, the second call leaves
the state unchanged, exactly one loopback module carries the pair
afterwards, and a call on a state that already has the route creates
nothing.  Hypotheses: source and sink names contain no space, and the
state satisfies the at-most-one-route-per-pair invariant. -/
theorem C3_loopback_add_idempotent (s : PulseState) (source sink : String)
    (hsrc : ∀ c ∈ source.data, c ≠ ' ') (hsink : ∀ c ∈ sink.data, c ≠ ' ')
    (hcount : loopbackPairCount s source sink ≤ 1) :
    (loopback_add s source sink).1 =
      (loopback_add (loopback_add s source sink).2 source sink).1 ∧
    (loopback_add (loopback_add s source sink).2 source sink).2 =
      (loopback_add s source sink).2 ∧
    loopbackPairCount (loopback_add s source sink).2 source sink = 1 ∧
    (1 ≤ loopbackPairCount s source sink → (loopback_add s source sink).2 = s) := by
  cases hget : dictGet (loopback_dict s) (some source, some sink) with
  | some curr =>
    have h1 : loopback_add s source sink = (curr.index, s) := by
      unfold loopback_add
      rw [hget]
    have h2 : (loopback_add s source sink).2 = s := by rw [h1]
    have hmem : (some source, some sink) ∈ loopPairs s := by
      by_contra hx
      have hnone := (loopback_dict_none_iff s source sink).mpr hx
      rw [hget] at hnone
      cases hnone
    have hcpos : 0 < loopbackPairCount s source sink := List.count_pos_iff.mpr hmem
    have hc1 : loopbackPairCount s source sink = 1 := le_antisymm hcount hcpos
    refine ⟨?_, ?_, ?_, fun _ => h2⟩
    · rw [h2]
    · rw [h2]
      exact h2
    · rw [h2]
      exact hc1
  | none =>
    have hnot : (some source, some sink) ∉ loopPairs s :=
      (loopback_dict_none_iff s source sink).mp hget
    have hc0 : loopbackPairCount s source sink = 0 := List.count_eq_zero.mpr hnot
    have h1 : loopback_add s source sink = loopback_add_load s source sink := by
      unfold loopback_add
      rw [hget]
    have hg1 : dictGet (parsedArgs (loadedLoopback s source sink)) "source" = some source := by
      rw [parsedArgs_loadedLoopback s source sink hsrc hsink]
      simp [dictGet]
    have hg2 : dictGet (parsedArgs (loadedLoopback s source sink)) "sink" = some sink := by
      rw [parsedArgs_loadedLoopback s source sink hsrc hsink]
      simp [dictGet]
    have hitems := module_items_loopback_add_load s source sink
    have hpairs2 : loopPairs (loopback_add_load s source sink).2 =
        loopPairs s ++ [(some source, some sink)] := by
      unfold loopPairs
      rw [hitems, List.map_append]
      simp [hg1, hg2]
    have hdict1 : dictGet (loopback_dict (loopback_add_load s source sink).2)
        (some source, some sink) = some (loadedLoopback s source sink) := by
      unfold loopback_dict
      rw [hitems, List.map_append]
      have hone : ([(parsedArgs (loadedLoopback s source sink),
          loadedLoopback s source sink)]).map
            (fun p => ((dictGet p.1 "source", dictGet p.1 "sink"), p.2)) =
              [((some source, some sink), loadedLoopback s source sink)] := by
        simp [hg1, hg2]
      rw [hone, pythonDict_append_single]
      exact dictGet_updateAssoc_self _ _ _
    have h2 : loopback_add (loopback_add_load s source sink).2 source sink =
        ((loadedLoopback s source sink).index, (loopback_add_load s source sink).2) := by
      unfold loopback_add
      rw [hdict1]
    refine ⟨?_, ?_, ?_, ?_⟩
    · rw [h1, h2]
      rfl
    · rw [h1, h2]
    · rw [h1]
      unfold loopbackPairCount
      rw [hpairs2, List.count_append]
      have hc0' : (loopPairs s).count (some source, some sink) = 0 := hc0
      rw [hc0']
      simp
    · intro hge
      rw [hc0] at hge
      omega

/-! ### The connect pass and the delta report -/

theorem loopback_add_modules {s : PulseState} {source sink : String} {m : Module}
    (hm : m ∈ (loopback_add s source sink).2.modules) :
    m ∈ s.modules ∨
      (m.name = "module-loopback" ∧
        m.argument = "source=" ++ source ++ " sink=" ++ sink) := by
  cases hget : dictGet (loopback_dict s) (some source, some sink) with
  | some curr =>
    have h1 : loopback_add s source sink = (curr.index, s) := by
      unfold loopback_add
      rw [hget]
    rw [h1] at hm
    exact Or.inl hm
  | none =>
    have h1 : loopback_add s source sink = loopback_add_load s source sink := by
      unfold loopback_add
      rw [hget]
    rw [h1] at hm
    have h2 : (loopback_add_load s source sink).2.modules =
        s.modules ++ [loadedLoopback s source sink] := rfl
    rw [h2] at hm
    rcases List.mem_append.mp hm with hm | hm
    · exact Or.inl hm
    · right
      have hmM : m = loadedLoopback s source sink := by simpa using hm
      subst hmM
      exact ⟨rfl, rfl⟩

/-- C5: the connect pass never creates a self-loop: every module present
after `capturer_connect s name` either was already present or is a
loopback whose source argument is the name of one of the listed sources
other than the sink's own monitor `<name>.monitor`. -/
theorem C5_connect_no_self_loop (s : PulseState) (name : String) :
    ∀ m ∈ (capturer_connect s name).modules,
      m ∈ s.modules ∨
        ∃ src, src ≠ name ++ ".monitor" ∧ m.name = "module-loopback" ∧
          m.argument = "source=" ++ src ++ " sink=" ++ name := by
  have main : ∀ (l : List Source) (st : PulseState),
      (∀ m ∈ st.modules, m ∈ s.modules ∨ ∃ src, src ≠ name ++ ".monitor" ∧
        m.name = "module-loopback" ∧ m.argument = "source=" ++ src ++ " sink=" ++ name) →
      ∀ m ∈ (l.foldl (fun st src => if src.name = name ++ ".monitor" then st
          else (loopback_add st src.name name).2) st).modules,
        m ∈ s.modules ∨ ∃ src, src ≠ name ++ ".monitor" ∧
          m.name = "module-loopback" ∧ m.argument = "source=" ++ src ++ " sink=" ++ name := by
    intro l
    induction l with
    | nil => intro st h; exact h
    | cons a t ih =>
      intro st h
      rw [List.foldl_cons]
      by_cases ha : a.name = name ++ ".monitor"
      · rw [if_pos ha]
        exact ih st h
      · rw [if_neg ha]
        apply ih
        intro m hm
        rcases loopback_add_modules hm with hm | ⟨hn, harg⟩
        · exact h m hm
        · exact Or.inr ⟨a.name, ha, hn, harg⟩
  exact main s.sources s (fun m hm => Or.inl hm)

theorem string_append_inj_of_length {p q x y : String} (hlen : p.length = q.length)
    (h : p ++ x = q ++ y) : p = q ∧ x = y := by
  have hd : p.data ++ x.data = q.data ++ y.data := by
    rw [← String.data_append, ← String.data_append, h]
  have hlen' : p.data.length = q.data.length := hlen
  obtain ⟨h1, h2⟩ := List.append_inj hd hlen'
  constructor
  · cases p; cases q; simp only at h1; rw [h1]
  · cases x; cases y; simp only at h2; rw [h2]

theorem count_tagged_map (pre : String) (F : Finset String) (x : String) :
    Multiset.count (pre ++ x) (F.val.map (fun y => pre ++ y)) = if x ∈ F then 1 else 0 := by
  have hinj : Function.Injective (fun y => pre ++ y) := by
    intro y₁ y₂ h
    exact (string_append_inj_of_length rfl h).2
  rw [Multiset.count_map_eq_count' _ _ hinj x]
  by_cases hx : x ∈ F
  · rw [if_pos hx]
    exact Multiset.count_eq_one_of_mem F.nodup hx
  · rw [if_neg hx]
    exact Multiset.count_eq_zero_of_not_mem hx

theorem count_tagged_map_ne (preA preB : String) (hne : preA ≠ preB)
    (hlen : preA.length = preB.length) (F : Finset String) (x : String) :
    Multiset.count (preA ++ x) (F.val.map (fun y => preB ++ y)) = 0 := by
  rw [Multiset.count_eq_zero]
  intro hmem
  obtain ⟨y, -, heq⟩ := Multiset.mem_map.mp hmem
  exact hne (string_append_inj_of_length hlen.symm heq).1.symm

/-- C7: the delta report prints exactly one `Connected source` line per
element of `srcsB − srcsA`, one `Disconnected source` line per element
of `srcsA − srcsB`, one `Connected app` line per element of
`appsB − appsA`, one `Disconnected app` line per element of
`appsA − appsB`, and nothing else (the total number of lines is the sum
of the four difference cardinalities). -/
theorem C7_deltaprint_exact_diffs (srcsB srcsA appsB appsA : Finset String) :
    (∀ x : String,
      ((capturer_deltaprint srcsB srcsA appsB appsA).count
          ("  Connected source    " ++ x) = if x ∈ srcsB \ srcsA then 1 else 0) ∧
      ((capturer_deltaprint srcsB srcsA appsB appsA).count
          ("  Disconnected source " ++ x) = if x ∈ srcsA \ srcsB then 1 else 0) ∧
      ((capturer_deltaprint srcsB srcsA appsB appsA).count
          ("  Connected app       " ++ x) = if x ∈ appsB \ appsA then 1 else 0) ∧
      ((capturer_deltaprint srcsB srcsA appsB appsA).count
          ("  Disconnected app    " ++ x) = if x ∈ appsA \ appsB then 1 else 0)) ∧
    Multiset.card (capturer_deltaprint srcsB srcsA appsB appsA) =
      (srcsB \ srcsA).card + (srcsA \ srcsB).card +
        (appsB \ appsA).card + (appsA \ appsB).card := by
  constructor
  · intro x
    refine ⟨?_, ?_, ?_, ?_⟩
    · unfold capturer_deltaprint
      rw [Multiset.count_add, Multiset.count_add, Multiset.count_add]
      rw [count_tagged_map, count_tagged_map_ne _ _ (by decide) (by decide),
        count_tagged_map_ne _ _ (by decide) (by decide),
        count_tagged_map_ne _ _ (by decide) (by decide)]
      simp
    · unfold capturer_deltaprint
      rw [Multiset.count_add, Multiset.count_add, Multiset.count_add]
      rw [count_tagged_map, count_tagged_map_ne _ _ (by decide) (by decide),
        count_tagged_map_ne _ _ (by decide) (by decide),
        count_tagged_map_ne _ _ (by decide) (by decide)]
      simp
    · unfold capturer_deltaprint
      rw [Multiset.count_add, Multiset.count_add, Multiset.count_add]
      rw [count_tagged_map, count_tagged_map_ne _ _ (by decide) (by decide),
        count_tagged_map_ne _ _ (by decide) (by decide),
        count_tagged_map_ne _ _ (by decide) (by decide)]
      simp
    · unfold capturer_deltaprint
      rw [Multiset.count_add, Multiset.count_add, Multiset.count_add]
      rw [count_tagged_map, count_tagged_map_ne _ _ (by decide) (by decide),
        count_tagged_map_ne _ _ (by decide) (by decide),
        count_tagged_map_ne _ _ (by decide) (by decide)]
      simp
  · unfold capturer_deltaprint
    rw [Multiset.card_add, Multiset.card_add, Multiset.card_add,
      Multiset.card_map, Multiset.card_map, Multiset.card_map, Multiset.card_map]
    rfl

/-- C8: the Indexer's argument parser behaves exactly as
whitespace-separated `key=value` tokenization: the regex-findall scan
used by `module_items` agrees with splitting the string on spaces and
splitting each token containing `'='` at its first `'='`, tokens
without `'='` (unexpected extra arguments) are ignored rather than
failing, and looking up an absent key in the resulting dict yields
`none` rather than an error. -/
theorem C8_parser_is_token_map (arg : String) :
    findallKV arg.data = tokenParse arg.data ∧
    ∀ k : String, k ∉ (pythonDict (findallKV arg.data)).map Prod.fst →
      dictGet (pythonDict (findallKV arg.data)) k = none := by
  refine ⟨findallKV_eq_tokenParse arg.data, ?_⟩
  intro k hk
  exact dictGet_eq_none_iff.mpr hk

/-! ### Concrete states used by the witnesses -/

/-- A small concrete server state: two loopbacks into sink `x`, one
into `y`, null sinks `x` and `y`, sources `s1`, `s2` and the monitor of
`x`, and three consumer streams on the monitor of `x` (two named
`Recorder`, one `Peak detect`). -/
def demoState : PulseState :=
  { modules :=
      [ { index := 0, name := "module-loopback",
          argument := "source=s1 sink=x" },
        { index := 1, name := "module-loopback",
          argument := "source=s2 sink=x" },
        { index := 2, name := "module-loopback",
          argument := "source=s1 sink=y" },
        { index := 3, name := "module-null-sink",
          argument := "sink_name=x sink_properties=device.description=x" },
        { index := 4, name := "module-null-sink",
          argument := "sink_name=y sink_properties=device.description=y" } ],
    sources := [ { name := "s1", index := 0 }, { name := "s2", index := 1 },
      { name := "x.monitor", index := 2 } ],
    source_outputs := [ { index := 0, name := "Recorder", source := 2 },
      { index := 1, name := "Peak detect", source := 2 },
      { index := 2, name := "Recorder", source := 2 } ],
    nextIndex := 5 }

/-- A concrete server state with no modules: one source, one consumer. -/
def emptyState : PulseState :=
  { modules := [], sources := [ { name := "s1", index := 0 } ],
    source_outputs := [ { index := 0, name := "Recorder", source := 0 } ],
    nextIndex := 0 }

/-! ### Witnesses -/

theorem C9_witness :
    ((demoState.modules.map Module.index).Nodup ∧ (loopPairs demoState).Nodup) ∧
    (({ index := 0, name := "module-loopback", argument := "source=s1 sink=x" } : Module) ∈
        (vsink_disconnect demoState "x").modules ↔
      ({ index := 0, name := "module-loopback", argument := "source=s1 sink=x" } : Module) ∈
          demoState.modules ∧
        ¬ isLoopTo { index := 0, name := "module-loopback", argument := "source=s1 sink=x" }
          "x") :=
  ⟨⟨by decide, by decide⟩,
   C9_disconnect_exactly_routes demoState "x" (by decide) (by decide)
     { index := 0, name := "module-loopback", argument := "source=s1 sink=x" }⟩

theorem C1_witness :
    ((demoState.modules.map Module.index).Nodup ∧ (loopPairs demoState).Nodup) ∧
    ((vsink_apps demoState "x" ≠ [] →
        vsink_safe_remove demoState "x" = (vsink_apps demoState "x", demoState)) ∧
      (vsink_apps demoState "x" = [] →
        (vsink_safe_remove demoState "x").1 = [] ∧
        ∀ m : Module, m ∈ (vsink_safe_remove demoState "x").2.modules ↔
          m ∈ demoState.modules ∧ ¬ isLoopTo m "x" ∧ ¬ isNullSinkNamed m "x")) :=
  ⟨⟨by decide, by decide⟩, C1_safe_remove_gate demoState "x" (by decide) (by decide)⟩

theorem C2_witness :
    ((∀ c ∈ "z".data, c ≠ ' ') ∧ nullSinkCount demoState "z" ≤ 1) ∧
    ((vsink_add demoState "z").1 = (vsink_add (vsink_add demoState "z").2 "z").1 ∧
      (vsink_add (vsink_add demoState "z").2 "z").2 = (vsink_add demoState "z").2 ∧
      nullSinkCount (vsink_add demoState "z").2 "z" = 1 ∧
      (1 ≤ nullSinkCount demoState "z" → (vsink_add demoState "z").2 = demoState)) :=
  ⟨⟨by decide, by decide⟩, C2_vsink_add_idempotent demoState "z" (by decide) (by decide)⟩

theorem C3_witness :
    ((∀ c ∈ "s3".data, c ≠ ' ') ∧ (∀ c ∈ "x".data, c ≠ ' ') ∧
      loopbackPairCount demoState "s3" "x" ≤ 1) ∧
    ((loopback_add demoState "s3" "x").1 =
        (loopback_add (loopback_add demoState "s3" "x").2 "s3" "x").1 ∧
      (loopback_add (loopback_add demoState "s3" "x").2 "s3" "x").2 =
        (loopback_add demoState "s3" "x").2 ∧
      loopbackPairCount (loopback_add demoState "s3" "x").2 "s3" "x" = 1 ∧
      (1 ≤ loopbackPairCount demoState "s3" "x" →
        (loopback_add demoState "s3" "x").2 = demoState)) :=
  ⟨⟨by decide, by decide, by decide⟩,
   C3_loopback_add_idempotent demoState "s3" "x" (by decide) (by decide) (by decide)⟩

theorem C4_witness :
    ((∀ src ∈ emptyState.sources, src.name ≠ "x" ++ ".monitor") ∧
      (∀ c ∈ emptyState.source_outputs, 0 ≤ c.source) ∧
      (∀ m ∈ emptyState.modules, ¬ isLoopTo m "x" ∧ ¬ isNullSinkNamed m "x")) ∧
    (vsink_source emptyState "x" = -1 ∧ vsink_apps emptyState "x" = [] ∧
      vsink_safe_remove emptyState "x" = ([], emptyState)) :=
  ⟨⟨by decide, by decide, by decide⟩,
   C4_absent_sink_noop emptyState "x" (by decide) (by decide) (by decide)⟩

theorem C5_witness :
    (({ index := 0, name := "module-loopback", argument := "source=s1 sink=x" } : Module) ∈
        (capturer_connect emptyState "x").modules) ∧
    (({ index := 0, name := "module-loopback", argument := "source=s1 sink=x" } : Module) ∈
        emptyState.modules ∨
      ∃ src, src ≠ "x" ++ ".monitor" ∧
        ({ index := 0, name := "module-loopback",
            argument := "source=s1 sink=x" } : Module).name = "module-loopback" ∧
        ({ index := 0, name := "module-loopback",
            argument := "source=s1 sink=x" } : Module).argument =
          "source=" ++ src ++ " sink=" ++ "x") :=
  ⟨by decide,
   C5_connect_no_self_loop emptyState "x"
     { index := 0, name := "module-loopback", argument := "source=s1 sink=x" } (by decide)⟩

theorem C6_witness :
    ((("Recorder", ({ index := 2, name := "Recorder", source := 2 } : SourceOutput)) ∈
        vsink_apps demoState "x") ∧
      ({ index := 0, name := "Recorder", source := 2 } : SourceOutput) ∈
        demoState.source_outputs ∧
      ({ index := 0, name := "Recorder", source := 2 } : SourceOutput).source =
        vsink_source demoState "x" ∧
      ({ index := 0, name := "Recorder", source := 2 } : SourceOutput).name ≠
        "Peak detect") ∧
    ((("Recorder", ({ index := 2, name := "Recorder", source := 2 } : SourceOutput)).2.name ≠
        "Peak detect" ∧
      ("Recorder", ({ index := 2, name := "Recorder", source := 2 } : SourceOutput)).1 =
        ("Recorder", ({ index := 2, name := "Recorder", source := 2 } : SourceOutput)).2.name ∧
      ("Recorder", ({ index := 2, name := "Recorder", source := 2 } : SourceOutput)).2 ∈
        demoState.source_outputs ∧
      ("Recorder", ({ index := 2, name := "Recorder", source := 2 } : SourceOutput)).2.source =
        vsink_source demoState "x") ∧
      ({ index := 0, name := "Recorder", source := 2 } : SourceOutput).name ∈
        (vsink_apps demoState "x").map Prod.fst) :=
  ⟨⟨by decide, by decide, by decide, by decide⟩,
   ⟨(C6_peak_detect_excluded demoState "x").1 _ (by decide),
    (C6_peak_detect_excluded demoState "x").2 _ (by decide) (by decide) (by decide)⟩⟩

theorem C10_witness :
    (({ index := 0, name := "Recorder", source := 2 } : SourceOutput) ∈
        demoState.source_outputs ∧
      ({ index := 2, name := "Recorder", source := 2 } : SourceOutput) ∈
        demoState.source_outputs ∧
      ({ index := 0, name := "Recorder", source := 2 } : SourceOutput) ≠
        { index := 2, name := "Recorder", source := 2 }) ∧
    (((vsink_apps demoState "x").map Prod.fst).Nodup ∧
      ((vsink_apps demoState "x").map Prod.fst).count
        ({ index := 0, name := "Recorder", source := 2 } : SourceOutput).name = 1) :=
  ⟨⟨by decide, by decide, by decide⟩,
   ⟨(C10_one_entry_per_name demoState "x").1,
    (C10_one_entry_per_name demoState "x").2
      { index := 0, name := "Recorder", source := 2 }
      { index := 2, name := "Recorder", source := 2 }
      (by decide) (by decide) (by decide) (by decide) (by decide) (by decide) (by decide)⟩⟩

theorem C8_witness :
    ("z" ∉ (pythonDict (findallKV "a=b extra junk=".data)).map Prod.fst) ∧
    (findallKV "a=b extra junk=".data = tokenParse "a=b extra junk=".data ∧
      dictGet (pythonDict (findallKV "a=b extra junk=".data)) "z" = none) :=
  ⟨by decide,
   ⟨(C8_parser_is_token_map "a=b extra junk=").1,
    (C8_parser_is_token_map "a=b extra junk=").2 "z" (by decide)⟩⟩
